import Mathlib

/-!
Shallow embedding of the Day 3 wire-intersection program (src/src/main.rs).
Points and segments use unbounded `Int` coordinates; the program's `i32`
values stay far from the 32-bit boundary on all inputs considered here.
Rust panics (`unwrap`, `panic!`) are modelled as `Option.none`.
-/

namespace Day3

structure Point where
  x : Int
  y : Int
deriving DecidableEq, Repr

structure PointWithCost where
  point : Point
  cost : Int
deriving DecidableEq, Repr

structure PathSegment where
  direction : Char
  distance : Int
deriving DecidableEq, Repr

structure Segment where
  end1 : Point
  end2 : Point
  steps : Int
  mirrored : Bool
deriving DecidableEq, Repr

/-- Digit-string parser: the all-digits case of Rust `str::parse::<i32>`. -/
def parseDigits : List Char → Option Int
  | [] => none
  | cs =>
    if cs.all (fun c => c.isDigit) then
      some (cs.foldl (fun a c => a * 10 + ((c.toNat : Int) - ('0'.toNat : Int))) 0)
    else
      none

/-- Rust `str::parse::<i32>`: optional sign followed by digits (overflow is
ignored: coordinates are modelled as unbounded integers). -/
def parseInt (cs : List Char) : Option Int :=
  match cs with
  | '-' :: rest => (parseDigits rest).map (fun n => -n)
  | '+' :: rest => parseDigits rest
  | _ => parseDigits cs

/-- Rust `str::trim`: drop whitespace from both ends. -/
def trimChars (cs : List Char) : List Char :=
  ((cs.dropWhile (fun c => c.isWhitespace)).reverse.dropWhile
    (fun c => c.isWhitespace)).reverse

/-- `toPathSegment` from main.rs lines 52-56: the direction is the token's
first character (no validation), the distance is the rest of the trimmed
token parsed as an integer; both `unwrap` panics become `none`. -/
def toPathSegment (cs : List Char) : Option PathSegment :=
  match cs.head? with
  | none => none
  | some d => (parseInt ((trimChars cs).drop 1)).map (fun n => ⟨d, n⟩)

/-- Rust `"...".split(',')`: split a character list at commas, keeping
empty pieces. -/
def splitOnComma : List Char → List (List Char)
  | [] => [[]]
  | c :: rest =>
    let r := splitOnComma rest
    if c = ',' then [] :: r
    else
      match r with
      | [] => [[c]]
      | t :: ts => (c :: t) :: ts

/-- `path_strings.split(",").map(toPathSegment).collect()` with every
`unwrap` panic turned into `none`. -/
def parseTokens : List (List Char) → Option (List PathSegment)
  | [] => some []
  | t :: ts =>
    match toPathSegment t, parseTokens ts with
    | some p, some ps => some (p :: ps)
    | _, _ => none

/-- Destination of one step (the `match step.direction` in main.rs lines
63-69); the `panic!("unknown direction")` arm becomes `none`. -/
def stepDest (curr : Point) (st : PathSegment) : Option Point :=
  match st.direction with
  | 'U' => some ⟨curr.x, curr.y + st.distance⟩
  | 'D' => some ⟨curr.x, curr.y - st.distance⟩
  | 'L' => some ⟨curr.x - st.distance, curr.y⟩
  | 'R' => some ⟨curr.x + st.distance, curr.y⟩
  | _ => none

/-- Loop body of `path_to_segments` (main.rs lines 58-77), with the mutable
`curr` point and `steps` accumulator made explicit. -/
def pathToSegmentsGo (curr : Point) (steps : Int) :
    List PathSegment → Option (List Segment)
  | [] => some []
  | st :: rest =>
    match stepDest curr st with
    | none => none
    | some next =>
      match pathToSegmentsGo next (steps + st.distance) rest with
      | none => none
      | some segs => some (⟨curr, next, steps, false⟩ :: segs)

/-- `path_to_segments` from main.rs lines 58-77. -/
def path_to_segments (path : List PathSegment) : Option (List Segment) :=
  pathToSegmentsGo ⟨0, 0⟩ 0 path

/-- Per-segment body of `normalize` (main.rs lines 82-86). -/
def normalizeSeg (s : Segment) : Segment :=
  if s.end1.x > s.end2.x ∨ s.end1.y > s.end2.y then
    ⟨s.end2, s.end1, s.steps, true⟩
  else
    s

/-- `normalize` from main.rs lines 79-89. -/
def normalize (segments : List Segment) : List Segment :=
  segments.map normalizeSeg

/-- `split_on_direction` from main.rs lines 91-103: returns
(horizontals, verticals). -/
def split_on_direction : List Segment → List Segment × List Segment
  | [] => ([], [])
  | s :: rest =>
    let p := split_on_direction rest
    if s.end1.x = s.end2.x then (p.1, s :: p.2) else (s :: p.1, p.2)

/-- `cost_for_segment` from main.rs lines 105-121. -/
def cost_for_segment (p : Point) (s : Segment) : Int :=
  if s.end1.x ≠ s.end2.x then
    if s.mirrored then s.steps + s.end2.x - p.x
    else s.steps + p.x - s.end1.x
  else
    if s.mirrored then s.steps + s.end2.y - p.y
    else s.steps + p.y - s.end1.y

/-- `cost` from main.rs lines 123-125. -/
def cost (p : Point) (segment1 segment2 : Segment) : Int :=
  cost_for_segment p segment1 + cost_for_segment p segment2

/-- `between` from main.rs lines 190-194. -/
def between (i low high : Int) : Bool :=
  if i < low then false
  else if i > high then false
  else true

/-- `intersects_horizontal` from main.rs lines 127-151: the two `for` loops
(horizontals first, then verticals) become list maps joined in order. -/
def intersects_horizontal (segment : Segment)
    (horizontals verticals : List Segment) : List PointWithCost :=
  (horizontals.map (fun other =>
    if segment.end1.y = other.end1.y then
      let leftmost := max segment.end1.x other.end1.x
      let rightmost := min segment.end2.x other.end2.x
      let point1 : Point := ⟨leftmost, segment.end1.y⟩
      let point2 : Point := ⟨rightmost, segment.end1.y⟩
      [⟨point1, cost point1 other segment⟩, ⟨point2, cost point2 other segment⟩]
    else [])).flatten ++
  (verticals.map (fun other =>
    if between other.end1.x segment.end1.x segment.end2.x then
      if between segment.end1.y other.end1.y other.end2.y then
        let point : Point := ⟨other.end1.x, segment.end1.y⟩
        [⟨point, cost point other segment⟩]
      else []
    else [])).flatten

/-- `intersects_vertical` from main.rs lines 153-178: the two `for` loops
(verticals first, then horizontals) become list maps joined in order. -/
def intersects_vertical (segment : Segment)
    (horizontals verticals : List Segment) : List PointWithCost :=
  (verticals.map (fun other =>
    if segment.end1.x = other.end1.x then
      let bottom := max segment.end1.y other.end1.y
      let top := min segment.end2.y other.end2.y
      let point1 : Point := ⟨segment.end1.x, bottom⟩
      let point2 : Point := ⟨segment.end1.x, top⟩
      [⟨point1, cost point1 segment other⟩, ⟨point2, cost point2 segment other⟩]
    else [])).flatten ++
  (horizontals.map (fun other =>
    if between other.end1.y segment.end1.y segment.end2.y then
      if between segment.end1.x other.end1.x other.end2.x then
        let point : Point := ⟨segment.end1.x, other.end1.y⟩
        [⟨point, cost point segment other⟩]
      else []
    else [])).flatten

/-- `intersects` from main.rs lines 180-188. -/
def intersects (segment : Segment)
    (horizontals verticals : List Segment) : List PointWithCost :=
  if segment.end1.x = segment.end2.x then
    intersects_vertical segment horizontals verticals
  else
    intersects_horizontal segment horizontals verticals

/-- `distance` from main.rs lines 196-198: Manhattan distance from the
origin. -/
def distance (p : Point) : Int :=
  ((p.x.natAbs + p.y.natAbs : Nat) : Int)

/-- One candidate update inside the loops of `closest_intersect` (main.rs
lines 207-216); the running state is
(closest_distance, closest_intersect, closest_by_path). -/
def updateCandidate (st : Int × PointWithCost × PointWithCost)
    (i : PointWithCost) : Int × PointWithCost × PointWithCost :=
  (if distance i.point < st.1 ∧ distance i.point ≠ 0 then distance i.point
   else st.1,
   if distance i.point < st.1 ∧ distance i.point ≠ 0 then i else st.2.1,
   if i.cost < st.2.2.cost ∧ i.cost > 0 then i else st.2.2)

/-- `closest_intersect` from main.rs lines 200-219, with the mutable
running minimums made an explicit fold state. -/
def closest_intersect (path1 path2 : List Segment) :
    Int × PointWithCost × PointWithCost :=
  let p := split_on_direction path2
  path1.foldl
    (fun st segment => (intersects segment p.1 p.2).foldl updateCandidate st)
    (100000000, ⟨⟨10000000, 10000000⟩, 10000000⟩, ⟨⟨10000000, 10000000⟩, 10000000⟩)

/-- The full pipeline of `main` (main.rs lines 232-239): parse both wire
strings, build segments, normalize, and reduce. -/
def runPipeline (s1 s2 : List Char) :
    Option (Int × PointWithCost × PointWithCost) :=
  match parseTokens (splitOnComma s1), parseTokens (splitOnComma s2) with
  | some p1, some p2 =>
    match path_to_segments p1, path_to_segments p2 with
    | some segs1, some segs2 =>
      some (closest_intersect (normalize segs1) (normalize segs2))
    | _, _ => none
  | _, _ => none

/-! ## Theorems -/

/-- C1: for the two wires of the second worked example, the full pipeline
(parse, build segments, normalize, closest_intersect) returns minimum
Manhattan distance 159 and minimum combined path cost 610. -/
theorem pipeline_example_results :
    (runPipeline ("R75,D30,R83,U83,L12,D49,R71,U7,L72".data)
        ("U62,R66,U55,R34,D71,R55,D58,R83".data)).map
      (fun r => (r.1, r.2.2.cost)) = some (159, 610) := by
  decide

/-- C2: for two horizontal segments that share the same y but whose x-ranges
are disjoint (overlap interval [max 0 5, min 1 6] = [5, 1] is empty), the
engine still emits the two boundary points as candidates, contrary to the
specified emptiness check. -/
theorem intersects_horizontal_disjoint_emits :
    intersects_horizontal ⟨⟨0, 0⟩, ⟨1, 0⟩, 0, false⟩
      [⟨⟨5, 0⟩, ⟨6, 0⟩, 0, false⟩] [] =
      [⟨⟨5, 0⟩, 5⟩, ⟨⟨1, 0⟩, -3⟩] := by
  decide

/-- C3 counterexample: a degenerate zero-length segment has equal
x-coordinates at both endpoints, so split_on_direction puts it in the
vertical group, not the horizontal group as the claim states. -/
theorem split_on_direction_degenerate_vertical :
    split_on_direction [⟨⟨0, 0⟩, ⟨0, 0⟩, 0, false⟩] =
      ([], [⟨⟨0, 0⟩, ⟨0, 0⟩, 0, false⟩]) := by
  decide

/-- C3 (amended): split_on_direction sends segments with equal endpoint
x-coordinates to the vertical group and all others to the horizontal group,
preserving relative order (it equals the corresponding pair of order
preserving filters); a degenerate zero-length segment lands in the vertical
group. -/
theorem split_on_direction_spec (l : List Segment) :
    split_on_direction l =
      (l.filter (fun s => decide (s.end1.x ≠ s.end2.x)),
       l.filter (fun s => decide (s.end1.x = s.end2.x))) ∧
    ∀ s ∈ l, s.end1 = s.end2 → s ∈ (split_on_direction l).2 := by
  have hfilter : ∀ m : List Segment, split_on_direction m =
      (m.filter (fun s => decide (s.end1.x ≠ s.end2.x)),
       m.filter (fun s => decide (s.end1.x = s.end2.x))) := by
    intro m
    induction m with
    | nil => rfl
    | cons s rest ih =>
      by_cases hc : s.end1.x = s.end2.x <;>
        simp [split_on_direction, List.filter_cons, hc, ih]
  refine ⟨hfilter l, ?_⟩
  intro s hs hdeg
  rw [hfilter l]
  simp only [List.mem_filter]
  exact ⟨hs, by simp [hdeg]⟩

/-- C3 witness: the amended statement applied to a concrete two-segment
list containing a degenerate segment. -/
theorem split_on_direction_spec_witness :
    split_on_direction [⟨⟨0, 0⟩, ⟨2, 0⟩, 0, false⟩, ⟨⟨2, 0⟩, ⟨2, 0⟩, 2, false⟩] =
      ([⟨⟨0, 0⟩, ⟨2, 0⟩, 0, false⟩], [⟨⟨2, 0⟩, ⟨2, 0⟩, 2, false⟩]) ∧
    (⟨⟨2, 0⟩, ⟨2, 0⟩, 2, false⟩ : Segment) ∈
      (split_on_direction
        [⟨⟨0, 0⟩, ⟨2, 0⟩, 0, false⟩, ⟨⟨2, 0⟩, ⟨2, 0⟩, 2, false⟩]).2 := by
  refine ⟨?_, ?_⟩
  · exact (split_on_direction_spec _).1.trans (by decide)
  · exact (split_on_direction_spec _).2 _ (by decide) (by decide)

/-- C9: the perpendicular containment test is symmetric: testing a segment h
against the singleton vertical group [v] produces exactly the same candidate
list as testing v against the singleton horizontal group [h]. -/
theorem perp_containment_symmetric (h v : Segment) :
    intersects_horizontal h [] [v] = intersects_vertical v [h] [] := by
  simp only [intersects_horizontal, intersects_vertical, List.map_nil,
    List.map_cons, List.flatten_nil, List.flatten_cons, List.nil_append,
    List.append_nil]
  by_cases hA : between v.end1.x h.end1.x h.end2.x = true <;>
    by_cases hB : between h.end1.y v.end1.y v.end2.y = true <;>
      simp [hA, hB, cost]

theorem distance_nonneg (p : Point) : 0 ≤ distance p :=
  Int.natCast_nonneg _

theorem updateCandidate_pos (st : Int × PointWithCost × PointWithCost)
    (i : PointWithCost) (h1 : 0 < distance st.2.1.point)
    (h2 : 0 < st.2.2.cost) :
    0 < distance (updateCandidate st i).2.1.point ∧
    0 < (updateCandidate st i).2.2.cost := by
  unfold updateCandidate
  constructor
  · by_cases hc : distance i.point < st.1 ∧ distance i.point ≠ 0
    · have := distance_nonneg i.point
      simp only [if_pos hc]
      omega
    · simp only [if_neg hc]
      exact h1
  · by_cases hc : i.cost < st.2.2.cost ∧ i.cost > 0
    · simp only [if_pos hc]
      exact hc.2
    · simp only [if_neg hc]
      exact h2

theorem foldl_updateCandidate_pos (cs : List PointWithCost)
    (st : Int × PointWithCost × PointWithCost)
    (h1 : 0 < distance st.2.1.point) (h2 : 0 < st.2.2.cost) :
    0 < distance (cs.foldl updateCandidate st).2.1.point ∧
    0 < (cs.foldl updateCandidate st).2.2.cost := by
  induction cs generalizing st with
  | nil => exact ⟨h1, h2⟩
  | cons c rest ih =>
    obtain ⟨g1, g2⟩ := updateCandidate_pos st c h1 h2
    exact ih (updateCandidate st c) g1 g2

theorem foldl_segments_pos (hs vs segs : List Segment)
    (st : Int × PointWithCost × PointWithCost)
    (h1 : 0 < distance st.2.1.point) (h2 : 0 < st.2.2.cost) :
    0 < distance (segs.foldl (fun acc segment =>
        (intersects segment hs vs).foldl updateCandidate acc) st).2.1.point ∧
    0 < (segs.foldl (fun acc segment =>
        (intersects segment hs vs).foldl updateCandidate acc) st).2.2.cost := by
  induction segs generalizing st with
  | nil => exact ⟨h1, h2⟩
  | cons s rest ih =>
    obtain ⟨g1, g2⟩ := foldl_updateCandidate_pos (intersects s hs vs) st h1 h2
    exact ih _ g1 g2

/-- C6: for every pair of segment lists, the reducer never selects the
trivial origin intersection: the reported minimum-distance point has
Manhattan distance strictly greater than zero and the reported minimum-cost
candidate has combined cost strictly greater than zero. -/
theorem closest_intersect_nontrivial (path1 path2 : List Segment) :
    0 < distance (closest_intersect path1 path2).2.1.point ∧
    0 < (closest_intersect path1 path2).2.2.cost := by
  unfold closest_intersect
  exact foldl_segments_pos _ _ path1 _ (by decide) (by decide)

/-- A segment is axis aligned: its endpoints agree in x or in y. Every
segment built by path_to_segments has this shape. -/
def axisAligned (s : Segment) : Prop :=
  s.end1.x = s.end2.x ∨ s.end1.y = s.end2.y

instance (s : Segment) : Decidable (axisAligned s) :=
  inferInstanceAs (Decidable (s.end1.x = s.end2.x ∨ s.end1.y = s.end2.y))

theorem normalizeSeg_canon (s : Segment) (h : axisAligned s) :
    normalizeSeg (normalizeSeg s) = normalizeSeg s ∧
    (normalizeSeg s).end1.x ≤ (normalizeSeg s).end2.x ∧
    (normalizeSeg s).end1.y ≤ (normalizeSeg s).end2.y := by
  obtain ⟨⟨x1, y1⟩, ⟨x2, y2⟩, st, m⟩ := s
  simp only [axisAligned] at h
  simp only [normalizeSeg]
  split_ifs <;> simp_all <;> omega

/-- C7: on axis-aligned input, normalize is idempotent and every output
segment satisfies end1.x ≤ end2.x and end1.y ≤ end2.y. -/
theorem normalize_canon (l : List Segment) (h : ∀ s ∈ l, axisAligned s) :
    normalize (normalize l) = normalize l ∧
    ∀ s ∈ normalize l, s.end1.x ≤ s.end2.x ∧ s.end1.y ≤ s.end2.y := by
  constructor
  · unfold normalize
    rw [List.map_map]
    apply List.map_congr_left
    intro s hs
    exact (normalizeSeg_canon s (h s hs)).1
  · intro s hs
    rw [normalize, List.mem_map] at hs
    obtain ⟨t, ht, rfl⟩ := hs
    exact (normalizeSeg_canon t (h t ht)).2

/-- C7 witness: the canonicalization statement applied to a concrete
axis-aligned list with one mirrored-to-be and one untouched segment. -/
theorem normalize_canon_witness :
    normalize (normalize
      [⟨⟨3, 0⟩, ⟨0, 0⟩, 5, false⟩, ⟨⟨0, 0⟩, ⟨0, 4⟩, 8, false⟩]) =
      normalize [⟨⟨3, 0⟩, ⟨0, 0⟩, 5, false⟩, ⟨⟨0, 0⟩, ⟨0, 4⟩, 8, false⟩] ∧
    ∀ s ∈ normalize [⟨⟨3, 0⟩, ⟨0, 0⟩, 5, false⟩, ⟨⟨0, 0⟩, ⟨0, 4⟩, 8, false⟩],
      s.end1.x ≤ s.end2.x ∧ s.end1.y ≤ s.end2.y :=
  normalize_canon _ (by decide)

/-- C10: normalize preserves list length and, position by position, the
steps field and the unordered endpoint pair of every segment; only the
end1/end2 assignment (and the mirrored flag) may change. -/
theorem normalize_frame (l : List Segment) :
    (normalize l).length = l.length ∧
    ∀ (i : Nat) (s t : Segment), l[i]? = some s → (normalize l)[i]? = some t →
      t.steps = s.steps ∧
      (t.end1 = s.end1 ∧ t.end2 = s.end2 ∨
       t.end1 = s.end2 ∧ t.end2 = s.end1) := by
  constructor
  · simp [Day3.normalize]
  · intro i s t hs ht
    rw [Day3.normalize, List.getElem?_map, hs, Option.map_some'] at ht
    injection ht with ht
    subst ht
    unfold normalizeSeg
    by_cases hc : s.end1.x > s.end2.x ∨ s.end1.y > s.end2.y
    · simp [if_pos hc]
    · simp [if_neg hc]

/-- C10 witness: the frame condition applied at index 0 of a concrete
single-segment list whose endpoints get swapped. -/
theorem normalize_frame_witness :
    (normalize [⟨⟨3, 0⟩, ⟨0, 0⟩, 7, false⟩]).length = 1 ∧
    ((⟨⟨0, 0⟩, ⟨3, 0⟩, 7, true⟩ : Segment).steps =
        (⟨⟨3, 0⟩, ⟨0, 0⟩, 7, false⟩ : Segment).steps ∧
      ((⟨⟨0, 0⟩, ⟨3, 0⟩, 7, true⟩ : Segment).end1 =
          (⟨⟨3, 0⟩, ⟨0, 0⟩, 7, false⟩ : Segment).end1 ∧
        (⟨⟨0, 0⟩, ⟨3, 0⟩, 7, true⟩ : Segment).end2 =
          (⟨⟨3, 0⟩, ⟨0, 0⟩, 7, false⟩ : Segment).end2 ∨
       (⟨⟨0, 0⟩, ⟨3, 0⟩, 7, true⟩ : Segment).end1 =
          (⟨⟨3, 0⟩, ⟨0, 0⟩, 7, false⟩ : Segment).end2 ∧
        (⟨⟨0, 0⟩, ⟨3, 0⟩, 7, true⟩ : Segment).end2 =
          (⟨⟨3, 0⟩, ⟨0, 0⟩, 7, false⟩ : Segment).end1)) :=
  ⟨(normalize_frame [⟨⟨3, 0⟩, ⟨0, 0⟩, 7, false⟩]).1,
   (normalize_frame [⟨⟨3, 0⟩, ⟨0, 0⟩, 7, false⟩]).2 0 _ _ (by decide) (by decide)⟩

/-- Length of a segment along its axis, following the branch structure of
cost_for_segment (x-extent when the segment is horizontal, y-extent
otherwise). -/
def segLen (s : Segment) : Int :=
  if s.end1.x ≠ s.end2.x then s.end2.x - s.end1.x else s.end2.y - s.end1.y

/-- The point of a normalized segment at traversal-relative offset d from
the segment's true (pre-normalization) start: a mirrored segment was
traversed from end2 towards end1, an unmirrored one from end1 towards
end2. -/
def pointAt (s : Segment) (d : Int) : Point :=
  if s.end1.x ≠ s.end2.x then
    if s.mirrored then ⟨s.end2.x - d, s.end1.y⟩ else ⟨s.end1.x + d, s.end1.y⟩
  else
    if s.mirrored then ⟨s.end1.x, s.end2.y - d⟩ else ⟨s.end1.x, s.end1.y + d⟩

/-- C5: for every normalized segment and every traversal-relative offset d
with 0 ≤ d ≤ segment length, cost_for_segment at the offset-d point equals
steps + d, independently of the mirrored flag. -/
theorem cost_for_segment_offset (s : Segment) (d : Int)
    (hx : s.end1.x ≤ s.end2.x) (hy : s.end1.y ≤ s.end2.y)
    (hd0 : 0 ≤ d) (hdl : d ≤ segLen s) :
    cost_for_segment (pointAt s d) s = s.steps + d := by
  unfold cost_for_segment pointAt
  by_cases hh : s.end1.x ≠ s.end2.x <;>
    by_cases hm : s.mirrored = true <;>
      simp [hh, hm] <;> ring

/-- C5 witness: the offset-cost statement at a concrete mirrored horizontal
segment and offset 2. -/
theorem cost_for_segment_offset_witness :
    cost_for_segment (pointAt ⟨⟨0, 0⟩, ⟨3, 0⟩, 7, true⟩ 2)
      ⟨⟨0, 0⟩, ⟨3, 0⟩, 7, true⟩ = 7 + 2 :=
  cost_for_segment_offset ⟨⟨0, 0⟩, ⟨3, 0⟩, 7, true⟩ 2
    (by decide) (by decide) (by decide) (by decide)

theorem stepDest_unknown (curr : Point) (st : PathSegment)
    (h : st.direction ∉ (['U', 'D', 'L', 'R'] : List Char)) :
    stepDest curr st = none := by
  simp only [List.mem_cons, List.not_mem_nil, or_false, not_or] at h
  unfold stepDest
  split <;> simp_all

/-- C4 counterexample: the parser accepts the token "X5" although its
direction character is not one of U, D, L, R, returning a PathStep with
direction 'X'. -/
theorem toPathSegment_accepts_bad_direction :
    toPathSegment ['X', '5'] = some ⟨'X', 5⟩ := by
  decide

/-- C4 (amended): the parse stage fails on any token whose numeric suffix
does not parse as an integer, and for every token whose numeric suffix
parses it returns a PathStep with the token's first character as direction
(no validation of that character) and the parsed distance; a PathStep whose
direction is not one of U, D, L, R then makes the path builder fail. -/
theorem parse_error_behavior :
    (∀ cs : List Char, parseInt ((trimChars cs).drop 1) = none →
      toPathSegment cs = none) ∧
    (∀ (c : Char) (cs : List Char) (n : Int),
      parseInt ((trimChars (c :: cs)).drop 1) = some n →
      toPathSegment (c :: cs) = some ⟨c, n⟩) ∧
    (∀ st : PathSegment, st.direction ∉ (['U', 'D', 'L', 'R'] : List Char) →
      ∀ (curr : Point) (steps : Int) (rest : List PathSegment),
        pathToSegmentsGo curr steps (st :: rest) = none) := by
  refine ⟨?_, ?_, ?_⟩
  · intro cs h
    cases cs with
    | nil => rfl
    | cons c rest =>
      rw [List.drop_one] at h
      simp [toPathSegment, h]
  · intro c cs n h
    rw [List.drop_one] at h
    simp [toPathSegment, h]
  · intro st h curr steps rest
    simp only [pathToSegmentsGo]
    rw [stepDest_unknown curr st h]

/-- C4 witness: the amended parse behavior at three concrete inputs: a
token with a non-numeric suffix, a well-formed token, and a step with an
unrecognized direction. -/
theorem parse_error_behavior_witness :
    toPathSegment ['R', '7', 'x'] = none ∧
    toPathSegment ['R', '7', '5'] = some ⟨'R', 75⟩ ∧
    pathToSegmentsGo ⟨0, 0⟩ 0 [⟨'X', 5⟩] = none :=
  ⟨parse_error_behavior.1 ['R', '7', 'x'] (by decide),
   parse_error_behavior.2.1 'R' ['7', '5'] 75 (by decide),
   parse_error_behavior.2.2 ⟨'X', 5⟩ (by decide) ⟨0, 0⟩ 0 []⟩

/-- Signed displacement of one step: Up is +y, Down is -y, Left is -x,
Right is +x, each scaled by the step's distance. -/
def stepDisp (st : PathSegment) : Point :=
  match st.direction with
  | 'U' => ⟨0, st.distance⟩
  | 'D' => ⟨0, -st.distance⟩
  | 'L' => ⟨-st.distance, 0⟩
  | 'R' => ⟨st.distance, 0⟩
  | _ => ⟨0, 0⟩

def addPoint (p q : Point) : Point :=
  ⟨p.x + q.x, p.y + q.y⟩

/-- Walk from a point, adding each step's displacement in order. -/
def walkFrom (p : Point) (l : List PathSegment) : Point :=
  l.foldl (fun a st => addPoint a (stepDisp st)) p

/-- Component-wise vector sum of the steps' signed displacements. -/
def sumDisp (l : List PathSegment) : Point :=
  walkFrom ⟨0, 0⟩ l

/-- Total distance of a list of steps. -/
def sumDist (l : List PathSegment) : Int :=
  (l.map (fun st => st.distance)).sum

theorem stepDest_known (curr : Point) (st : PathSegment)
    (h : st.direction ∈ (['U', 'D', 'L', 'R'] : List Char)) :
    stepDest curr st = some (addPoint curr (stepDisp st)) := by
  simp only [List.mem_cons, List.not_mem_nil, or_false] at h
  rcases h with h | h | h | h <;>
    simp [stepDest, stepDisp, addPoint, h, sub_eq_add_neg]

theorem pathToSegmentsGo_spec (path : List PathSegment) :
    ∀ (curr : Point) (steps : Int),
    (∀ st ∈ path, st.direction ∈ (['U', 'D', 'L', 'R'] : List Char)) →
    ∃ segs, pathToSegmentsGo curr steps path = some segs ∧
      segs.length = path.length ∧
      ∀ (i : Nat) (s : Segment), segs[i]? = some s →
        s.end1 = walkFrom curr (path.take i) ∧
        s.end2 = walkFrom curr (path.take (i + 1)) ∧
        s.steps = steps + sumDist (path.take i) ∧
        s.mirrored = false := by
  induction path with
  | nil =>
    intro curr steps _
    refine ⟨[], rfl, rfl, ?_⟩
    intro i s hs
    simp at hs
  | cons st rest ih =>
    intro curr steps hdir
    have hst := hdir st (List.mem_cons_self st rest)
    obtain ⟨segs', hgo, hlen, hidx⟩ :=
      ih (addPoint curr (stepDisp st)) (steps + st.distance)
        (fun x hx => hdir x (List.mem_cons_of_mem st hx))
    refine ⟨⟨curr, addPoint curr (stepDisp st), steps, false⟩ :: segs', ?_, ?_, ?_⟩
    · simp only [pathToSegmentsGo, stepDest_known curr st hst, hgo]
    · simp [hlen]
    · intro i s hs
      cases i with
      | zero =>
        simp only [List.getElem?_cons_zero, Option.some.injEq] at hs
        subst hs
        refine ⟨rfl, rfl, ?_, rfl⟩
        simp [sumDist]
      | succ n =>
        simp only [List.getElem?_cons_succ] at hs
        obtain ⟨e1, e2, e3, e4⟩ := hidx n s hs
        refine ⟨e1, e2, ?_, e4⟩
        rw [e3]
        simp [sumDist]
        omega

/-- C8: for every step sequence over directions U, D, L, R with positive
distances, path_to_segments succeeds and produces one segment per step in
traversal order: segment i runs from the walked position before step i to
the walked position after it, carries the cumulative path length
accumulated before step i, and the last segment's destination is the
component-wise vector sum of all the steps' signed displacements. -/
theorem path_to_segments_spec (path : List PathSegment)
    (hdir : ∀ st ∈ path, st.direction ∈ (['U', 'D', 'L', 'R'] : List Char))
    (hpos : ∀ st ∈ path, 0 < st.distance) :
    ∃ segs, path_to_segments path = some segs ∧
      segs.length = path.length ∧
      (∀ (i : Nat) (s : Segment), segs[i]? = some s →
        s.end1 = sumDisp (path.take i) ∧
        s.end2 = sumDisp (path.take (i + 1)) ∧
        s.steps = sumDist (path.take i)) ∧
      ∀ s : Segment, segs.getLast? = some s → s.end2 = sumDisp path := by
  obtain ⟨segs, hgo, hlen, hidx⟩ := pathToSegmentsGo_spec path ⟨0, 0⟩ 0 hdir
  refine ⟨segs, hgo, hlen, ?_, ?_⟩
  · intro i s hs
    obtain ⟨e1, e2, e3, _⟩ := hidx i s hs
    refine ⟨e1, e2, ?_⟩
    rw [e3]
    omega
  · intro s hs
    have hne : segs ≠ [] := by
      intro hemp
      rw [hemp] at hs
      simp at hs
    rw [List.getLast?_eq_getElem?] at hs
    obtain ⟨_, e2, _, _⟩ := hidx (segs.length - 1) s hs
    have hlen0 : 0 < path.length := by
      rw [← hlen]
      exact List.length_pos.mpr hne
    have htake : path.take (segs.length - 1 + 1) = path := by
      rw [hlen]
      have hp : path.length - 1 + 1 = path.length := Nat.succ_pred_eq_of_pos hlen0
      rw [hp, List.take_length]
    rw [e2, htake]
    rfl

/-- C8 witness: the path builder statement at a concrete one-step path. -/
theorem path_to_segments_spec_witness :
    ∃ segs, path_to_segments [(⟨'R', 2⟩ : PathSegment)] = some segs ∧
      segs.length = 1 := by
  obtain ⟨segs, h1, h2, _, _⟩ :=
    path_to_segments_spec [⟨'R', 2⟩] (by decide) (by decide)
  exact ⟨segs, h1, h2⟩

end Day3
